import Mathlib

/-!
Verification of the cloudflare-swarm DNS reconciler.

Shallow embedding of the core logic of `app.py` (class `CloudflareDNSManager`),
`docker_manager.py` (class `DockerManager`) and `cloudflare_manager.py`
(class `CloudflareManager`).  Python strings are modelled as `List Char`,
Python dicts that are only iterated in insertion order as association lists,
and the Python `set` of processed service keys as a `List` used with
membership.  External effects (the Cloudflare HTTP API, `docker info`,
`os.getenv`) are modelled as explicit oracle parameters, and the provider
calls a run performs are returned as an explicit trace.
-/

/-- Python strings are modelled as lists of characters. -/
abbrev Str : Type := List Char

/-- Coerce a Lean string literal into the `Str` model. -/
def str (s : String) : Str := s.data

/-- The backtick character (used by the Traefik `Host` matcher). -/
def backTk : Char := Char.ofNat 96

/-- The double-quote character (alternative `Host` matcher quoting). -/
def quoteTk : Char := '\"'

/-!  ## RuleExtractor: hostname extraction (`extract_hostname_from_rule`)

`app.py` lines 47-68 (identical code in `docker_manager.py` lines 30-48):
`re.search` with pattern `Host\(Q([^Q]+)Q\)` for quote character Q, trying
the backtick pattern over the whole rule first, then the double-quote one.
`re.search` returns the leftmost position at which the anchored pattern
matches; at a given position the capture group `[^Q]+` is the maximal
nonempty run of non-Q characters, which must then be followed by Q and a
closing parenthesis. -/

/-- The literal text that opens a host matcher quoted with `q`: `Host(` then `q`. -/
def hostOpen (q : Char) : Str := str "Host(" ++ [q]

/-- Anchored match of the pattern `Host\(q([^q]+)q\)` at the start of `s`:
the capture is the maximal nonempty run of non-`q` characters after
`Host(q` (the 6-character opener), which must be followed by `q` and `)`. -/
def tryMatchAt (q : Char) (s : Str) : Option Str :=
  if (hostOpen q).isPrefixOf s then
    if (s.drop 6).takeWhile (fun c => c != q) = [] then none
    else
      match (s.drop 6).drop ((s.drop 6).takeWhile (fun c => c != q)).length with
      | c1 :: c2 :: _ =>
        if c1 = q ∧ c2 = ')' then some ((s.drop 6).takeWhile (fun c => c != q)) else none
      | _ => none
  else none

/-- `re.search` for the pattern `Host\(q([^q]+)q\)`: try the anchored match
at every position of `s`, left to right, returning the first success. -/
def scanHost (q : Char) : Str → Option Str
  | [] => none
  | c :: rest =>
    match tryMatchAt q (c :: rest) with
    | some h => some h
    | none => scanHost q rest

/-- `CloudflareDNSManager.extract_hostname_from_rule` (`app.py` 47-68):
search the whole rule for the backtick-quoted pattern first, then for the
double-quoted pattern, returning `none` if neither matches. -/
def extract_hostname_from_rule (rule : Str) : Option Str :=
  match scanHost backTk rule with
  | some h => some h
  | none => scanHost quoteTk rule

/-- Declarative statement that the `q`-quoted host pattern matches at
position `i` of `s` with capture `h`. -/
def matchesAt (q : Char) (s : Str) (i : Nat) (h : Str) : Prop :=
  h ≠ [] ∧ (∀ c ∈ h, c ≠ q) ∧ ∃ rest, s.drop i = hostOpen q ++ h ++ q :: ')' :: rest

/-- `h` is the capture of the leftmost `q`-quoted host-pattern match in `s`. -/
def leftmostHostMatch (q : Char) (s h : Str) : Prop :=
  ∃ i, matchesAt q s i h ∧ ∀ j h', matchesAt q s j h' → i ≤ j

/-- The first host matcher occurring in the expression, regardless of its
quoting style: at each position, left to right, try the backtick-quoted
anchored pattern then the double-quoted one.  (Spec-side definition used to
state what "the first host matcher in the expression" means; the source
does not scan this way.) -/
def scanAnyHost : Str → Option Str
  | [] => none
  | c :: rest =>
    match tryMatchAt backTk (c :: rest) with
    | some h => some h
    | none =>
      match tryMatchAt quoteTk (c :: rest) with
      | some h => some h
      | none => scanAnyHost rest


/-!  ## RuleExtractor: label traversal (`process_service_labels` lines 161-170,
`DockerManager.get_service_info` lines 60-66)

The Python loop iterates the label dict in insertion order; a label whose key
contains `.rule` and whose value contains `Host(` appends its value to the
rule list, and a label whose key ends with `.cloudflare.proxied` stores
`value.lower() == 'true'` in the proxy-settings dict under the router name
extracted from the key.  A Python dict assignment to an existing key updates
the value but keeps the key's original position, which `dictInsert` mirrors. -/

/-- Python's substring operator `needle in haystack`: the needle occurs
contiguously somewhere in the haystack (always true for an empty needle). -/
def containsSub (needle : Str) : Str → Bool
  | [] => needle.isEmpty
  | c :: rest => needle.isPrefixOf (c :: rest) || containsSub needle rest

/-- The routing-rule marker segment searched for inside label keys. -/
def ruleMarker : Str := str ".rule"

/-- The host-matcher token searched for inside label values. -/
def hostTok : Str := str "Host("

/-- The proxy-toggle marker suffix of label keys. -/
def proxMarker : Str := str ".cloudflare.proxied"

/-- Python `s.split(sep)[0]` for a nonempty `sep`: the text before the first
occurrence of `sep`, or all of `s` when `sep` does not occur. -/
def splitFirstAt (sep : Str) : Str → Str
  | [] => []
  | c :: rest => if sep.isPrefixOf (c :: rest) then [] else c :: splitFirstAt sep rest

/-- Python `s.split('.')[-1]`: the text after the last dot, all of `s` when
there is no dot, and empty when `s` ends in a dot. -/
def lastDotSegment (s : Str) : Str :=
  (s.reverse.takeWhile (fun c => c != '.')).reverse

/-- Router name derived from a proxy-toggle label key (`app.py` line 169):
`key.split('.cloudflare.proxied')[0].split('.')[-1]`. -/
def routerName (key : Str) : Str :=
  lastDotSegment (splitFirstAt proxMarker key)

/-- Python `s.lower()` (the characters of interest are ASCII). -/
def lowerStr (s : Str) : Str := s.map Char.toLower

/-- The boolean stored for a proxy-toggle label (`app.py` line 170):
`value.lower() == 'true'`. -/
def pythonTrue (v : Str) : Bool := lowerStr v == str "true"

/-- Python dict assignment `d[k] = v` on an insertion-ordered association
list: an existing key keeps its position and gets the new value, a new key
is appended at the end. -/
def dictInsert (k : Str) (v : Bool) : List (Str × Bool) → List (Str × Bool)
  | [] => [(k, v)]
  | (k', v') :: rest => if k' = k then (k, v) :: rest else (k', v') :: dictInsert k v rest

/-- The label loop of `process_service_labels` (`app.py` 161-170), with the
rule list and proxy-settings dict as explicit accumulators. -/
def collectLabels : List (Str × Str) → List Str → List (Str × Bool) → List Str × List (Str × Bool)
  | [], rules, settings => (rules, settings)
  | (k, v) :: rest, rules, settings =>
    let rules' := if containsSub ruleMarker k && containsSub hostTok v then rules ++ [v] else rules
    let settings' :=
      if proxMarker.isSuffixOf k then dictInsert (routerName k) (pythonTrue v) settings
      else settings
    collectLabels rest rules' settings'

/-- Rule and proxy-setting extraction from a workload's labels
(`app.py` 158-170; also `DockerManager.get_service_info`, which runs the
same loop and returns both collections). -/
def extractLabels (labels : List (Str × Str)) : List Str × List (Str × Bool) :=
  collectLabels labels [] []


/-!  ## DomainResolver (`get_domain_config`, `app.py` 38-45 and
`cloudflare_manager.py` 18-25)

Iterates the configured domain table in insertion order and returns the
config of the first domain that is a suffix of the hostname
(`hostname.endswith(domain)`). -/

/-- One entry of the `CLOUDFLARE_DOMAINS` table: `{"zone_id": ..., "api_key": ...}`. -/
structure DomainConfig where
  zone_id : Str
  api_key : Str
deriving DecidableEq

/-- `CloudflareDNSManager.get_domain_config` (`app.py` 38-45), identical to
`CloudflareManager.get_domain_config`: the domain table is an
insertion-ordered association list, never mutated; first suffix match wins. -/
def get_domain_config (cfg : List (Str × DomainConfig)) (hostname : Str) : Option DomainConfig :=
  match cfg with
  | [] => none
  | (domain, config) :: rest =>
    if domain.isSuffixOf hostname then some config else get_domain_config rest hostname

/-!  ## Public-address resolution (`get_swarm_node_ip`, `app.py` 130-144 and
`docker_manager.py` 17-28)

`docker_client.info()` may raise (caught); when it succeeds and reports
`Swarm.LocalNodeState == 'active'` the function returns
`os.getenv('SWARM_PUBLIC_IP', '0.0.0.0')`; in every other case (info raised,
no `Swarm` key, state not active) it returns
`os.getenv('PUBLIC_IP', '0.0.0.0')`. -/

/-- The sentinel address returned when the relevant override is unset. -/
def sentinelIp : Str := str "0.0.0.0"

/-- Oracle for the environment `get_swarm_node_ip` consults: the outcome of
`docker_client.info()` and the two environment variables (`none` = unset). -/
structure IpEnv where
  dockerInfoOk : Bool
  swarmKeyPresent : Bool
  localNodeState : Str
  swarmPublicIp : Option Str
  publicIp : Option Str
deriving DecidableEq

/-- Whether the `docker info` call succeeds and reports an active swarm node
(the condition of `app.py` line 137). -/
def swarmActive (e : IpEnv) : Bool :=
  e.dockerInfoOk && e.swarmKeyPresent && (e.localNodeState == str "active")

/-- `CloudflareDNSManager.get_swarm_node_ip` (`app.py` 130-144), identical in
`DockerManager`: active swarm reads `SWARM_PUBLIC_IP` (default `0.0.0.0`),
every other path reads `PUBLIC_IP` (default `0.0.0.0`). -/
def get_swarm_node_ip (e : IpEnv) : Str :=
  if swarmActive e then e.swarmPublicIp.getD sentinelIp
  else e.publicIp.getD sentinelIp

/-!  ## DnsRecordClient lookup (`get_cloudflare_record`, `app.py` 70-93 and
`CloudflareManager.get_record`, `cloudflare_manager.py` 27-50)

The `try` block catches exactly `requests.exceptions.RequestException`
(which includes connection failures, `raise_for_status` HTTP errors, and —
in the requests versions where `response.json()` raises
`requests.exceptions.JSONDecodeError` — body-decoding failures) and returns
`None`.  A response that decodes to JSON but lacks the `"success"` key, or
reports success without a `"result"` key, raises `KeyError`/`TypeError`
*outside* the caught class, which propagates to the caller.  The short
circuit `data["success"] and data["result"]` means `"result"` is only read
when `"success"` is truthy. -/

/-- A DNS record as returned by the provider (opaque payload; the engine
only tests existence). -/
structure DnsRecord where
  payload : Str
deriving DecidableEq

/-- A Python exception escaping `get_cloudflare_record`. -/
inductive PyErr where
  | keyError
deriving DecidableEq

/-- Outcome of the HTTP exchange inside `get_cloudflare_record`: either some
`RequestException` was raised, or a JSON body was obtained, with each of the
`success` and `result` fields either absent (`none`) or present. -/
inductive LookupOutcome where
  | requestException
  | resp (success : Option Bool) (result : Option (List DnsRecord))

/-- `CloudflareDNSManager.get_cloudflare_record` (`app.py` 70-93), identical
to `CloudflareManager.get_record`: `RequestException` is caught and yields
`None`; reading a missing `success` (or, when success is true, a missing
`result`) raises `KeyError`.  An absent-or-empty result list yields `None`,
otherwise `result[0]` is returned. -/
def get_cloudflare_record : LookupOutcome → Except PyErr (Option DnsRecord)
  | .requestException => .ok none
  | .resp success result =>
    match success with
    | none => .error .keyError
    | some false => .ok none
    | some true =>
      match result with
      | none => .error .keyError
      | some [] => .ok none
      | some (r :: _) => .ok (some r)

/-!  ## ReconciliationEngine (`process_service_labels`, `app.py` 146-225)

The per-rule body (lines 173-222) is embedded as `processRule`; the loop
over the extracted rules as `processRules`; the whole method as
`process_service_labels`.  The provider and the cluster address are an
oracle (`Env`); the calls made to the provider are returned as a trace.
The `proxied` flag is computed by the source before the lookup (lines
189-194) but only used in the creation call, so it is computed by
`determineProxied` at its use site. -/

/-- The loop of `app.py` 190-194: `proxied` defaults to `True` and takes the
value of the first proxy-setting entry (dict insertion order) whose router
name is a substring of the rule or of the service name. -/
def determineProxied (settings : List (Str × Bool)) (rule service_name : Str) : Bool :=
  match settings with
  | [] => true
  | (r, b) :: rest =>
    if containsSub r rule || containsSub r service_name then b
    else determineProxied rest rule service_name

/-- Oracle for the externals `process_service_labels` consults: the DNS
provider's lookup result, the success of a creation call, and the value
`get_swarm_node_ip` returns. -/
structure Env where
  lookup : Str → Str → Str → Option DnsRecord
  createOk : Str → Str → Str → Str → Bool → Bool
  swarmIp : Str

/-- One provider call, recorded with its arguments and outcome: a record
lookup (`found` = whether a record came back) or a record creation
(`ok` = whether the provider reported success). -/
inductive ProviderCall where
  | lookup (zone api_key name : Str) (found : Bool)
  | create (zone api_key name ip : Str) (proxied : Bool) (ok : Bool)
deriving DecidableEq

/-- The per-rule body of `process_service_labels` (`app.py` 173-222):
extract the hostname (skip on failure), skip if the `service_name:hostname`
key was already processed, resolve the domain config (skip with a warning if
absent), look the record up; if found, mark the key processed; otherwise,
when the swarm address is not the `0.0.0.0` sentinel, attempt creation and
mark the key processed only on reported success.  Returns the new processed
set and the trace of provider calls.  (The source calls the creation
endpoint once and binds `success`; with a pure oracle the repeated
`env.createOk` application denotes that single call's result.) -/
def processRule (env : Env) (cfg : List (Str × DomainConfig)) (service_name : Str)
    (settings : List (Str × Bool)) (processed : List Str) (rule : Str) :
    List Str × List ProviderCall :=
  match extract_hostname_from_rule rule with
  | none => (processed, [])
  | some hostname =>
    if service_name ++ ':' :: hostname ∈ processed then (processed, [])
    else
      match get_domain_config cfg hostname with
      | none => (processed, [])
      | some dc =>
        match env.lookup dc.zone_id dc.api_key hostname with
        | some _ => ((service_name ++ ':' :: hostname) :: processed,
                     [.lookup dc.zone_id dc.api_key hostname true])
        | none =>
          if env.swarmIp ≠ sentinelIp then
            ((if env.createOk dc.zone_id dc.api_key hostname env.swarmIp
                  (determineProxied settings rule service_name) then
                (service_name ++ ':' :: hostname) :: processed
              else processed),
             [.lookup dc.zone_id dc.api_key hostname false,
              .create dc.zone_id dc.api_key hostname env.swarmIp
                (determineProxied settings rule service_name)
                (env.createOk dc.zone_id dc.api_key hostname env.swarmIp
                  (determineProxied settings rule service_name))])
          else (processed, [.lookup dc.zone_id dc.api_key hostname false])

/-- The rule loop of `app.py` line 173: process each extracted rule in
order, threading the processed set and concatenating the call traces. -/
def processRules (env : Env) (cfg : List (Str × DomainConfig)) (service_name : Str)
    (settings : List (Str × Bool)) : List Str → List Str → List Str × List ProviderCall
  | [], processed => (processed, [])
  | r :: rest, processed =>
    let out := processRule env cfg service_name settings processed r
    let out' := processRules env cfg service_name settings rest out.1
    (out'.1, out.2 ++ out'.2)

/-- `CloudflareDNSManager.process_service_labels` (`app.py` 146-225) for one
workload: run the label loop, then the rule loop.  (The early return on an
empty label dict coincides with processing an empty rule list.) -/
def process_service_labels (env : Env) (cfg : List (Str × DomainConfig))
    (service_name : Str) (labels : List (Str × Str)) (processed : List Str) :
    List Str × List ProviderCall :=
  let ex := extractLabels labels
  processRules env cfg service_name ex.2 ex.1 processed

/-- The service key a successful provider call justifies marking as
processed: a lookup that found a record, or a creation the provider
accepted, both for the hostname the call was made with. -/
def callMarksKey (service_name : Str) : ProviderCall → Option Str
  | .lookup _ _ name true => some (service_name ++ ':' :: name)
  | .create _ _ name _ _ true => some (service_name ++ ':' :: name)
  | _ => none

/-!  ## Concrete data used to instantiate the theorems -/

/-- A rule mixing the two quoting styles: a double-quoted matcher before a
backtick-quoted one. -/
def mixedRule : Str := str "Host(\"a.com\") && Host(`b.com`)"

/-- Environment with an active swarm node, `SWARM_PUBLIC_IP` unset and
`PUBLIC_IP` set. -/
def c2Env : IpEnv :=
  { dockerInfoOk := true, swarmKeyPresent := true, localNodeState := str "active",
    swarmPublicIp := none, publicIp := some (str "1.2.3.4") }

/-- A sample domain config entry. -/
def dc0 : DomainConfig := { zone_id := str "Z1", api_key := str "K1" }

/-- A one-entry domain table owning `example.com`. -/
def cfg0 : List (Str × DomainConfig) := [(str "example.com", dc0)]

/-- A sample workload name. -/
def name0 : Str := str "web"

/-- A sample backtick-quoted routing rule. -/
def rule0 : Str := str "Host(`app.example.com`)"

/-- The hostname `rule0` exposes. -/
def host0 : Str := str "app.example.com"

/-- A sample existing DNS record. -/
def rec0 : DnsRecord := { payload := str "r0" }

/-- Oracle in which every lookup finds a record. -/
def envFound : Env :=
  { lookup := fun _ _ _ => some rec0, createOk := fun _ _ _ _ _ => true,
    swarmIp := str "1.2.3.4" }

/-- Oracle in which lookups find nothing and creation fails. -/
def envCreateFail : Env :=
  { lookup := fun _ _ _ => none, createOk := fun _ _ _ _ _ => false,
    swarmIp := str "1.2.3.4" }

/-- Sample labels: one routing rule and one proxy toggle for router `web`. -/
def labels0 : List (Str × Str) :=
  [(str "traefik.http.routers.web.rule", rule0),
   (str "traefik.http.routers.web.cloudflare.proxied", str "false")]

/-!  ## Theorems -/

/-- `List.isPrefixOf` on characters agrees with the existence of a
decomposition `b = a ++ t`. -/
theorem isPrefixOf_eq_true_iff (a b : Str) : a.isPrefixOf b = true ↔ ∃ t, b = a ++ t := by
  induction a generalizing b with
  | nil => simp [List.isPrefixOf]
  | cons x xs ih =>
    cases b with
    | nil => simp [List.isPrefixOf]
    | cons y ys =>
      simp only [List.isPrefixOf, Bool.and_eq_true, beq_iff_eq, ih, List.cons_append]
      constructor
      · rintro ⟨rfl, t, rfl⟩
        exact ⟨t, rfl⟩
      · rintro ⟨t, h⟩
        injection h with h1 h2
        exact ⟨h1.symm, t, h2⟩

/-- Dropping the maximal `p`-run of a list leaves its `dropWhile`. -/
theorem drop_length_takeWhile (p : Char → Bool) (t : Str) :
    t.drop (t.takeWhile p).length = t.dropWhile p := by
  induction t with
  | nil => rfl
  | cons c cs ih =>
    by_cases hc : p c
    · simp [List.takeWhile_cons, List.dropWhile_cons, hc, ih]
    · simp [List.takeWhile_cons, List.dropWhile_cons, hc]

/-- The maximal run of non-`q` characters of `h ++ q :: l` is `h` when `h`
is `q`-free. -/
theorem takeWhile_append_stop (q : Char) (h l : Str) (hq : ∀ c ∈ h, c ≠ q) :
    (h ++ q :: l).takeWhile (fun c => c != q) = h := by
  induction h with
  | nil => simp [List.takeWhile_cons]
  | cons c cs ih =>
    have hc : (c != q) = true := by
      simpa using hq c (by simp)
    simp only [List.cons_append, List.takeWhile_cons, hc, if_true, List.cons.injEq, true_and]
    exact ih (fun c' hc' => hq c' (by simp [hc']))

/-- Dropping the non-`q` run of `h ++ q :: l` leaves `q :: l` when `h` is
`q`-free. -/
theorem dropWhile_append_stop (q : Char) (h l : Str) (hq : ∀ c ∈ h, c ≠ q) :
    (h ++ q :: l).dropWhile (fun c => c != q) = q :: l := by
  induction h with
  | nil => simp [List.dropWhile_cons]
  | cons c cs ih =>
    have hc : (c != q) = true := by
      simpa using hq c (by simp)
    simp only [List.cons_append, List.dropWhile_cons, hc, if_true]
    exact ih (fun c' hc' => hq c' (by simp [hc']))

/-- The length of the host-matcher opener. -/
theorem hostOpen_length (q : Char) : (hostOpen q).length = 6 := rfl

/-- Soundness of the anchored matcher: a successful `tryMatchAt` is a
declarative match at position 0. -/
theorem tryMatchAt_sound {q : Char} {s h : Str} (htm : tryMatchAt q s = some h) :
    matchesAt q s 0 h := by
  unfold tryMatchAt at htm
  by_cases hp : (hostOpen q).isPrefixOf s = true
  · rw [if_pos hp] at htm
    obtain ⟨t, rfl⟩ := (isPrefixOf_eq_true_iff _ _).mp hp
    have hdrop6 : (hostOpen q ++ t).drop 6 = t := List.drop_left' (hostOpen_length q)
    rw [hdrop6] at htm
    by_cases hct : t.takeWhile (fun c => c != q) = []
    · rw [if_pos hct] at htm
      exact absurd htm (by simp)
    · rw [if_neg hct, drop_length_takeWhile] at htm
      split at htm
      next c1 c2 tail hdw =>
        by_cases hcc : c1 = q ∧ c2 = ')'
        · rw [if_pos hcc] at htm
          injection htm with htm
          subst htm
          rw [hcc.1, hcc.2] at hdw
          refine ⟨hct, fun c hc => ?_, tail, ?_⟩
          · simpa using List.mem_takeWhile_imp hc
          · rw [List.drop_zero, List.append_assoc, ← hdw, List.takeWhile_append_dropWhile]
        · rw [if_neg hcc] at htm
          exact absurd htm (by simp)
      next hno =>
        exact absurd htm (by simp)
  · rw [if_neg hp] at htm
    exact absurd htm (by simp)

/-- Completeness of the anchored matcher: a declarative match at position 0
is found by `tryMatchAt`. -/
theorem tryMatchAt_complete {q : Char} {s h : Str} (hm : matchesAt q s 0 h) :
    tryMatchAt q s = some h := by
  obtain ⟨hne, hqf, rest, hs⟩ := hm
  rw [List.drop_zero, List.append_assoc] at hs
  subst hs
  have hp : (hostOpen q).isPrefixOf (hostOpen q ++ (h ++ q :: ')' :: rest)) = true :=
    (isPrefixOf_eq_true_iff _ _).mpr ⟨_, rfl⟩
  have hdrop6 : (hostOpen q ++ (h ++ q :: ')' :: rest)).drop 6 = h ++ q :: ')' :: rest :=
    List.drop_left' (hostOpen_length q)
  have htake : (h ++ q :: ')' :: rest).takeWhile (fun c => c != q) = h :=
    takeWhile_append_stop q h _ hqf
  unfold tryMatchAt
  rw [if_pos hp, hdrop6, htake, if_neg hne, List.drop_left]
  show (if q = q ∧ ')' = ')' then some h else none) = some h
  rw [if_pos ⟨rfl, rfl⟩]

/-- No declarative match exists in the empty string. -/
theorem matchesAt_nil {q : Char} {i : Nat} {h : Str} : ¬ matchesAt q [] i h := by
  rintro ⟨-, -, rest, habs⟩
  simp [hostOpen] at habs

/-- Shifting a declarative match across a leading character. -/
theorem matchesAt_succ_cons {q c : Char} {s : Str} {i : Nat} {h : Str} :
    matchesAt q (c :: s) (i + 1) h ↔ matchesAt q s i h := by
  unfold matchesAt
  rw [List.drop_succ_cons]

/-- `scanHost` finds exactly the leftmost declarative match. -/
theorem scanHost_eq_some_iff (q : Char) (s h : Str) :
    scanHost q s = some h ↔ leftmostHostMatch q s h := by
  induction s with
  | nil =>
    constructor
    · intro habs
      exact absurd habs (by simp [scanHost])
    · rintro ⟨i, hm, -⟩
      exact absurd hm matchesAt_nil
  | cons c cs ih =>
    unfold scanHost
    cases htm : tryMatchAt q (c :: cs) with
    | some h0 =>
      have hm0 : matchesAt q (c :: cs) 0 h0 := tryMatchAt_sound htm
      constructor
      · intro heq
        injection heq with heq
        subst heq
        exact ⟨0, hm0, fun j h' _ => Nat.zero_le j⟩
      · rintro ⟨i, hmi, hmin⟩
        have hi0 : i = 0 := Nat.le_antisymm (hmin 0 h0 hm0) (Nat.zero_le i)
        subst hi0
        have : tryMatchAt q (c :: cs) = some h := tryMatchAt_complete hmi
        rw [htm] at this
        injection this with this
        rw [this]
    | none =>
      rw [ih]
      unfold leftmostHostMatch
      constructor
      · rintro ⟨i, hmi, hmin⟩
        refine ⟨i + 1, matchesAt_succ_cons.mpr hmi, fun j h' hj => ?_⟩
        cases j with
        | zero =>
          have : tryMatchAt q (c :: cs) = some h' := tryMatchAt_complete hj
          rw [htm] at this
          exact absurd this (by simp)
        | succ j' =>
          have := hmin j' h' (matchesAt_succ_cons.mp hj)
          omega
      · rintro ⟨i, hmi, hmin⟩
        cases i with
        | zero =>
          have : tryMatchAt q (c :: cs) = some h := tryMatchAt_complete hmi
          rw [htm] at this
          exact absurd this (by simp)
        | succ i' =>
          refine ⟨i', matchesAt_succ_cons.mp hmi, fun j h' hj => ?_⟩
          have := hmin (j + 1) h' (matchesAt_succ_cons.mpr hj)
          omega

/-- Any declarative match makes `scanHost` succeed. -/
theorem scanHost_isSome_of_matchesAt {q : Char} {s : Str} {i : Nat} {h : Str}
    (hm : matchesAt q s i h) : (scanHost q s).isSome = true := by
  induction s generalizing i with
  | nil => exact absurd hm matchesAt_nil
  | cons c cs ih =>
    unfold scanHost
    cases htm : tryMatchAt q (c :: cs) with
    | some h0 => simp
    | none =>
      cases i with
      | zero =>
        have : tryMatchAt q (c :: cs) = some h := tryMatchAt_complete hm
        rw [htm] at this
        exact absurd this (by simp)
      | succ i' =>
        exact ih (matchesAt_succ_cons.mp hm)

/-- `scanHost` fails exactly on the strings with no declarative match. -/
theorem scanHost_eq_none_iff (q : Char) (s : Str) :
    scanHost q s = none ↔ ∀ i h, ¬ matchesAt q s i h := by
  constructor
  · intro hn i h hm
    have := scanHost_isSome_of_matchesAt hm
    rw [hn] at this
    exact absurd this (by simp)
  · intro hno
    cases hs : scanHost q s with
    | none => rfl
    | some h =>
      obtain ⟨i, hm, -⟩ := (scanHost_eq_some_iff q s h).mp hs
      exact absurd hm (hno i h)

/-- Claim C6 counterexample: in the expression
`Host("a.com") && Host(`b.com`)` the first host matcher in the expression is
`a.com` (double-quoted), but extraction returns `b.com`, because the
backtick-quoted pattern is searched over the whole expression before the
double-quoted one; so extraction does not always yield the first matcher in
the expression. -/
theorem c6_counterexample :
    extract_hostname_from_rule mixedRule = some (str "b.com") ∧
    scanAnyHost mixedRule = some (str "a.com") ∧
    some (str "b.com") ≠ some (str "a.com") := by decide

/-- Claim C6 (amended): extraction tries the backtick-quoted host-matcher
pattern over the whole expression first — yielding the leftmost
backtick-quoted matcher — and only if no backtick-quoted matcher exists
anywhere does it yield the leftmost double-quoted matcher; it returns `none`
exactly when the expression contains no matcher of either style.  Among
matchers of the same quoting style the first in the expression is extracted,
but a backtick-quoted matcher takes precedence over any double-quoted one
regardless of position. -/
theorem c6_hostname_extraction_order (rule : Str) :
    (∀ h, extract_hostname_from_rule rule = some h ↔
      (leftmostHostMatch backTk rule h ∨
        ((∀ i h', ¬ matchesAt backTk rule i h') ∧ leftmostHostMatch quoteTk rule h))) ∧
    (extract_hostname_from_rule rule = none ↔
      ((∀ i h', ¬ matchesAt backTk rule i h') ∧ (∀ i h', ¬ matchesAt quoteTk rule i h'))) := by
  cases hb : scanHost backTk rule with
  | some h0 =>
    have hext : extract_hostname_from_rule rule = some h0 := by
      unfold extract_hostname_from_rule
      rw [hb]
    have hl := (scanHost_eq_some_iff backTk rule h0).mp hb
    rw [hext]
    constructor
    · intro h
      constructor
      · intro heq
        injection heq with heq
        subst heq
        exact Or.inl hl
      · rintro (hlm | ⟨hno, -⟩)
        · have := (scanHost_eq_some_iff backTk rule h).mpr hlm
          rw [hb] at this
          injection this with this
          rw [this]
        · obtain ⟨i, hm, -⟩ := hl
          exact absurd hm (hno i h0)
    · constructor
      · intro habs
        exact absurd habs (by simp)
      · rintro ⟨hno, -⟩
        obtain ⟨i, hm, -⟩ := hl
        exact absurd hm (hno i h0)
  | none =>
    have hext : extract_hostname_from_rule rule = scanHost quoteTk rule := by
      unfold extract_hostname_from_rule
      rw [hb]
    have hnb := (scanHost_eq_none_iff backTk rule).mp hb
    rw [hext]
    constructor
    · intro h
      rw [scanHost_eq_some_iff]
      constructor
      · intro hq
        exact Or.inr ⟨hnb, hq⟩
      · rintro (hlm | ⟨-, hq⟩)
        · obtain ⟨i, hm, -⟩ := hlm
          exact absurd hm (hnb i h)
        · exact hq
    · rw [scanHost_eq_none_iff]
      constructor
      · intro hq
        exact ⟨hnb, hq⟩
      · rintro ⟨-, hq⟩
        exact hq

/-- Unfolding equation for the resolver on a nonempty table. -/
theorem get_domain_config_cons (d : Str) (c : DomainConfig)
    (rest : List (Str × DomainConfig)) (h : Str) :
    get_domain_config ((d, c) :: rest) h =
      if d.isSuffixOf h then some c else get_domain_config rest h := rfl

/-- The resolver is the first-match lookup over the table. -/
theorem get_domain_config_eq_find (cfg : List (Str × DomainConfig)) (h : Str) :
    get_domain_config cfg h = (cfg.find? (fun p => p.1.isSuffixOf h)).map Prod.snd := by
  induction cfg with
  | nil => rfl
  | cons p rest ih =>
    obtain ⟨d, c⟩ := p
    rw [get_domain_config_cons]
    by_cases hd : d.isSuffixOf h = true
    · rw [if_pos hd, List.find?_cons_of_pos _ (by simpa using hd)]
      rfl
    · rw [if_neg hd, List.find?_cons_of_neg _ (by simpa using hd), ih]

/-- The resolver fails exactly when no entry's domain is a suffix. -/
theorem get_domain_config_none_iff (cfg : List (Str × DomainConfig)) (h : Str) :
    get_domain_config cfg h = none ↔ ∀ p ∈ cfg, p.1.isSuffixOf h = false := by
  induction cfg with
  | nil => simp [get_domain_config]
  | cons p rest ih =>
    obtain ⟨d, c⟩ := p
    rw [get_domain_config_cons]
    by_cases hd : d.isSuffixOf h = true
    · rw [if_pos hd]
      simp only [List.mem_cons]
      constructor
      · intro habs
        exact absurd habs (by simp)
      · intro hall
        have hfalse := hall (d, c) (Or.inl rfl)
        simp [hd] at hfalse
    · rw [if_neg hd, ih]
      simp only [List.mem_cons]
      constructor
      · intro hall q hq
        rcases hq with rfl | hq
        · show List.isSuffixOf d h = false
          cases hb : List.isSuffixOf d h with
          | false => rfl
          | true => exact absurd hb hd
        · exact hall q hq
      · intro hall q hq
        exact hall q (Or.inr hq)

/-- Claim C7: the domain resolver returns the config of the first table
entry (in insertion order) whose domain is a suffix of the hostname, and
returns `none` exactly when no entry's domain is a suffix; the table is a
value that is never mutated. -/
theorem c7_domain_resolver (cfg : List (Str × DomainConfig)) (h : Str) :
    get_domain_config cfg h = (cfg.find? (fun p => p.1.isSuffixOf h)).map Prod.snd ∧
    (get_domain_config cfg h = none ↔ ∀ p ∈ cfg, p.1.isSuffixOf h = false) :=
  ⟨get_domain_config_eq_find cfg h, get_domain_config_none_iff cfg h⟩

/-- Claim C2 counterexample: with an active swarm node, `SWARM_PUBLIC_IP`
unset and `PUBLIC_IP` set to `1.2.3.4`, the function returns the sentinel
`0.0.0.0` — so the public-IP override is not consulted first, and the
sentinel is returned even though one of the overrides is set. -/
theorem c2_counterexample :
    c2Env.publicIp = some (str "1.2.3.4") ∧
    str "1.2.3.4" ≠ sentinelIp ∧
    get_swarm_node_ip c2Env = sentinelIp := by decide

/-- Claim C2 (amended): when the orchestration info call succeeds and
reports an active swarm node, only the Swarm-specific override
`SWARM_PUBLIC_IP` is consulted (sentinel `0.0.0.0` when unset, even if
`PUBLIC_IP` is set); on every other path only `PUBLIC_IP` is consulted
(sentinel when unset).  Consequently the sentinel is returned exactly when
the override selected by the swarm state is unset or itself the sentinel. -/
theorem c2_public_ip_priority (e : IpEnv) :
    (swarmActive e = true → get_swarm_node_ip e = e.swarmPublicIp.getD sentinelIp) ∧
    (swarmActive e = false → get_swarm_node_ip e = e.publicIp.getD sentinelIp) ∧
    (get_swarm_node_ip e = sentinelIp ↔
      (swarmActive e = true ∧ (e.swarmPublicIp = none ∨ e.swarmPublicIp = some sentinelIp)) ∨
      (swarmActive e = false ∧ (e.publicIp = none ∨ e.publicIp = some sentinelIp))) := by
  unfold get_swarm_node_ip
  by_cases ha : swarmActive e = true
  · rw [if_pos ha]
    refine ⟨fun _ => rfl, fun habs => absurd ha (by simp [habs]), ?_⟩
    cases e.swarmPublicIp with
    | none => simp [ha]
    | some v => simp [ha, Option.getD]
  · rw [if_neg ha]
    have ha' : swarmActive e = false := by simpa using ha
    refine ⟨fun habs => absurd habs ha, fun _ => rfl, ?_⟩
    cases e.publicIp with
    | none => simp [ha']
    | some v => simp [ha', Option.getD]

/-- Claim C2 witness: the amended theorem applied to `c2Env`. -/
theorem c2_public_ip_priority_witness :
    get_swarm_node_ip c2Env = c2Env.swarmPublicIp.getD sentinelIp :=
  (c2_public_ip_priority c2Env).1 (by decide)

/-- Claim C8 counterexample: a response that decodes to JSON but has no
`success` key makes the lookup raise `KeyError` to its caller instead of
reporting "not found". -/
theorem c8_counterexample :
    get_cloudflare_record (.resp none none) = .error .keyError ∧
    (Except.error PyErr.keyError : Except PyErr (Option DnsRecord)) ≠ .ok none := by
  refine ⟨rfl, ?_⟩
  intro habs
  exact Except.noConfusion habs

/-- Claim C8 (amended): every failure signalled as a `RequestException`
(transport errors, HTTP error statuses, request-level decoding failures) is
caught and reported as "not found", and an unsuccessful response yields
"not found"; but the lookup raises `KeyError` exactly on the decoded
responses that lack the `success` key, or report success without a `result`
key. -/
theorem c8_lookup_error_handling (o : LookupOutcome) :
    (o = .requestException → get_cloudflare_record o = .ok none) ∧
    (∀ r, o = .resp (some false) r → get_cloudflare_record o = .ok none) ∧
    ((∃ e, get_cloudflare_record o = .error e) ↔
      ∃ s r, o = .resp s r ∧ (s = none ∨ (s = some true ∧ r = none))) := by
  cases o with
  | requestException =>
    refine ⟨fun _ => rfl, fun r habs => (nomatch habs), ?_⟩
    simp [get_cloudflare_record]
  | resp s r =>
    refine ⟨fun habs => (nomatch habs), fun r' habs => ?_, ?_⟩
    · injection habs with h1 h2
      subst h1
      rfl
    cases s with
    | none =>
      exact iff_of_true ⟨.keyError, rfl⟩ ⟨none, r, rfl, Or.inl rfl⟩
    | some b =>
      cases b with
      | false =>
        refine iff_of_false ?_ ?_
        · rintro ⟨e, habs⟩
          exact Except.noConfusion habs
        · rintro ⟨s', r', heq, hdis⟩
          injection heq with h1 h2
          subst h1
          subst h2
          rcases hdis with h | ⟨h, -⟩ <;> exact (nomatch h)
      | true =>
        cases r with
        | none =>
          exact iff_of_true ⟨.keyError, rfl⟩ ⟨some true, none, rfl, Or.inr ⟨rfl, rfl⟩⟩
        | some l =>
          have hok : ∃ v, get_cloudflare_record (.resp (some true) (some l)) = .ok v := by
            cases l with
            | nil => exact ⟨none, rfl⟩
            | cons x xs => exact ⟨some x, rfl⟩
          refine iff_of_false ?_ ?_
          · rintro ⟨e, habs⟩
            obtain ⟨v, hv⟩ := hok
            rw [hv] at habs
            exact Except.noConfusion habs
          · rintro ⟨s', r', heq, hdis⟩
            injection heq with h1 h2
            subst h1
            subst h2
            rcases hdis with h | ⟨-, h⟩ <;> exact (nomatch h)

/-- Claim C8 witness: the amended theorem applied to the transport-failure
outcome and to an unsuccessful (`success = false`) response. -/
theorem c8_lookup_error_handling_witness :
    get_cloudflare_record .requestException = .ok none ∧
    get_cloudflare_record (.resp (some false) none) = .ok none :=
  ⟨(c8_lookup_error_handling .requestException).1 rfl,
   (c8_lookup_error_handling (.resp (some false) none)).2.1 none rfl⟩

/-- If no label key contains the routing-rule marker, the label loop leaves
the rule accumulator unchanged. -/
theorem collectLabels_rules_const (labels : List (Str × Str))
    (hnone : ∀ p ∈ labels, containsSub ruleMarker p.1 = false) :
    ∀ rs ss, (collectLabels labels rs ss).1 = rs := by
  induction labels with
  | nil => intro rs ss; rfl
  | cons p rest ih =>
    obtain ⟨k, v⟩ := p
    intro rs ss
    have hk : containsSub ruleMarker k = false := hnone (k, v) (List.mem_cons_self _ _)
    simp only [collectLabels, hk, Bool.false_and, if_false]
    exact ih (fun q hq => hnone q (List.mem_cons_of_mem _ hq)) rs _

/-- If no label key ends with the proxy-toggle marker, the label loop leaves
the proxy-settings accumulator unchanged. -/
theorem collectLabels_settings_const (labels : List (Str × Str))
    (hnone : ∀ p ∈ labels, proxMarker.isSuffixOf p.1 = false) :
    ∀ rs ss, (collectLabels labels rs ss).2 = ss := by
  induction labels with
  | nil => intro rs ss; rfl
  | cons p rest ih =>
    obtain ⟨k, v⟩ := p
    intro rs ss
    have hk : proxMarker.isSuffixOf k = false := hnone (k, v) (List.mem_cons_self _ _)
    simp only [collectLabels, hk, Bool.false_eq_true, if_false]
    exact ih (fun q hq => hnone q (List.mem_cons_of_mem _ hq)) _ ss

/-- Claim C1 counterexample: the label mapping
`{"web.cloudflare.proxied": "false"}` has no key containing the routing-rule
marker, yet extraction produces a non-empty proxy-setting mapping — so the
claim's "both an empty rule sequence and an empty proxy-setting mapping"
fails. -/
theorem c1_counterexample :
    (∀ p ∈ [(str "web.cloudflare.proxied", str "false")], containsSub ruleMarker p.1 = false) ∧
    (extractLabels [(str "web.cloudflare.proxied", str "false")]).1 = [] ∧
    (extractLabels [(str "web.cloudflare.proxied", str "false")]).2 ≠ [] := by decide

/-- Claim C1 (amended): for every label mapping with no key containing the
routing-rule marker, extraction produces an empty rule sequence; the
proxy-setting mapping is additionally empty when no key ends with the
proxy-toggle marker (a proxy-toggle label alone yields a non-empty
proxy-setting mapping even without any routing-rule key). -/
theorem c1_no_rule_marker_extraction (labels : List (Str × Str))
    (hnone : ∀ p ∈ labels, containsSub ruleMarker p.1 = false) :
    (extractLabels labels).1 = [] ∧
    ((∀ p ∈ labels, proxMarker.isSuffixOf p.1 = false) → (extractLabels labels).2 = []) :=
  ⟨collectLabels_rules_const labels hnone [] [],
   fun hns => collectLabels_settings_const labels hns [] []⟩

/-- Claim C1 witness: the amended theorem applied to a one-label mapping
with neither marker. -/
theorem c1_no_rule_marker_extraction_witness :
    (extractLabels [(str "com.example.team", str "ops")]).1 = [] ∧
    ((∀ p ∈ [(str "com.example.team", str "ops")], proxMarker.isSuffixOf p.1 = false) →
      (extractLabels [(str "com.example.team", str "ops")]).2 = []) :=
  c1_no_rule_marker_extraction [(str "com.example.team", str "ops")] (by decide)

/-- A pair found in an insertion-ordered dict after an assignment is either
the assigned pair or was already present. -/
theorem dictInsert_mem {r k : Str} {b v : Bool} {ss : List (Str × Bool)}
    (hmem : (r, b) ∈ dictInsert k v ss) :
    (r = k ∧ b = v) ∨ (r, b) ∈ ss := by
  induction ss with
  | nil =>
    rcases List.mem_singleton.mp hmem with heq
    injection heq with h1 h2
    exact Or.inl ⟨h1, h2⟩
  | cons p rest ih =>
    obtain ⟨k', v'⟩ := p
    by_cases hk : k' = k
    · rw [dictInsert, if_pos hk] at hmem
      rcases List.mem_cons.mp hmem with heq | hmem'
      · injection heq with h1 h2
        exact Or.inl ⟨h1, h2⟩
      · exact Or.inr (List.mem_cons_of_mem _ hmem')
    · rw [dictInsert, if_neg hk] at hmem
      rcases List.mem_cons.mp hmem with heq | hmem'
      · exact Or.inr (List.mem_cons.mpr (Or.inl heq))
      · rcases ih hmem' with h | h
        · exact Or.inl h
        · exact Or.inr (List.mem_cons_of_mem _ h)

/-- Every proxy-setting entry produced by the label loop either was in the
accumulator or derives from a proxy-toggle label of the input. -/
theorem collectLabels_settings_mem (labels : List (Str × Str)) :
    ∀ rs ss r b, (r, b) ∈ (collectLabels labels rs ss).2 →
      (r, b) ∈ ss ∨ ∃ k v, (k, v) ∈ labels ∧ proxMarker.isSuffixOf k = true ∧
        r = routerName k ∧ b = pythonTrue v := by
  induction labels with
  | nil =>
    intro rs ss r b hmem
    exact Or.inl hmem
  | cons p rest ih =>
    obtain ⟨k, v⟩ := p
    intro rs ss r b hmem
    simp only [collectLabels] at hmem
    rcases ih _ _ r b hmem with hin | ⟨k', v', hkv, hsuf, hr, hb⟩
    · by_cases hs : proxMarker.isSuffixOf k = true
      · rw [if_pos hs] at hin
        rcases dictInsert_mem hin with ⟨hr, hb⟩ | hin'
        · exact Or.inr ⟨k, v, List.mem_cons_self _ _, hs, hr, hb⟩
        · exact Or.inl hin'
      · rw [if_neg hs] at hin
        exact Or.inl hin
    · exact Or.inr ⟨k', v', List.mem_cons_of_mem _ hkv, hsuf, hr, hb⟩

/-- Unfolding equation for the proxied-determination loop. -/
theorem determineProxied_cons (r : Str) (b : Bool) (rest : List (Str × Bool))
    (rule service_name : Str) :
    determineProxied ((r, b) :: rest) rule service_name =
      if containsSub r rule || containsSub r service_name then b
      else determineProxied rest rule service_name := rfl

/-- The proxied-determination loop is the first-match lookup over the
proxy-settings mapping, with default `true`. -/
theorem determineProxied_eq_find (settings : List (Str × Bool)) (rule service_name : Str) :
    determineProxied settings rule service_name =
      ((settings.find? (fun q => containsSub q.1 rule || containsSub q.1 service_name)).map
        Prod.snd).getD true := by
  induction settings with
  | nil => rfl
  | cons p rest ih =>
    obtain ⟨r, b⟩ := p
    rw [determineProxied_cons]
    by_cases hm : (containsSub r rule || containsSub r service_name) = true
    · rw [if_pos hm, List.find?_cons_of_pos _ (by simpa using hm)]
      rfl
    · rw [if_neg hm, List.find?_cons_of_neg _ (by simpa using hm), ih]

/-- Claim C10: a label whose key ends with the proxy-toggle marker
contributes a proxy setting that is `true` exactly when the label's
lowercased value is the string `true`; and a first-matching proxy setting
of `false` overrides the default-`true` proxied flag. -/
theorem c10_proxy_toggle_semantics :
    (∀ labels r b, (r, b) ∈ (extractLabels labels).2 →
      ∃ k v, (k, v) ∈ labels ∧ proxMarker.isSuffixOf k = true ∧ r = routerName k ∧
        (b = true ↔ lowerStr v = str "true")) ∧
    (∀ settings rule service_name r,
      settings.find? (fun q => containsSub q.1 rule || containsSub q.1 service_name)
        = some (r, false) →
      determineProxied settings rule service_name = false) := by
  constructor
  · intro labels r b hmem
    rcases collectLabels_settings_mem labels [] [] r b hmem with hin | ⟨k, v, hkv, hsuf, hr, hb⟩
    · exact absurd hin (List.not_mem_nil _)
    · refine ⟨k, v, hkv, hsuf, hr, ?_⟩
      rw [hb]
      unfold pythonTrue
      exact beq_iff_eq
  · intro settings rule service_name r hfind
    rw [determineProxied_eq_find, hfind]
    rfl

/-- Claim C10 witness: the theorem applied to `labels0`, whose proxy-toggle
label has value `false`. -/
theorem c10_proxy_toggle_semantics_witness :
    ∃ k v, (k, v) ∈ labels0 ∧ proxMarker.isSuffixOf k = true ∧ str "web" = routerName k ∧
      (false = true ↔ lowerStr v = str "true") :=
  c10_proxy_toggle_semantics.1 labels0 (str "web") false (by decide)

/-- Rule processing when no hostname can be extracted: no call, no change. -/
theorem processRule_no_hostname {env : Env} {cfg : List (Str × DomainConfig)}
    {name : Str} {settings : List (Str × Bool)} {s : List Str} {rule : Str}
    (hex : extract_hostname_from_rule rule = none) :
    processRule env cfg name settings s rule = (s, []) := by
  unfold processRule
  rw [hex]

/-- Rule processing when the idempotency key is already present: no call,
no change. -/
theorem processRule_already {env : Env} {cfg : List (Str × DomainConfig)}
    {name : Str} {settings : List (Str × Bool)} {s : List Str} {rule h : Str}
    (hex : extract_hostname_from_rule rule = some h)
    (hk : name ++ ':' :: h ∈ s) :
    processRule env cfg name settings s rule = (s, []) := by
  unfold processRule
  simp only [hex]
  rw [if_pos hk]

/-- Rule processing when no domain config matches the hostname: no call,
no change. -/
theorem processRule_no_config {env : Env} {cfg : List (Str × DomainConfig)}
    {name : Str} {settings : List (Str × Bool)} {s : List Str} {rule h : Str}
    (hex : extract_hostname_from_rule rule = some h)
    (hk : name ++ ':' :: h ∉ s)
    (hcfg : get_domain_config cfg h = none) :
    processRule env cfg name settings s rule = (s, []) := by
  unfold processRule
  simp only [hex, hcfg]
  rw [if_neg hk]

/-- Rule processing when the provider lookup finds a record: the key is
marked processed and the only call is the successful lookup. -/
theorem processRule_found {env : Env} {cfg : List (Str × DomainConfig)}
    {name : Str} {settings : List (Str × Bool)} {s : List Str} {rule h : Str}
    {dc : DomainConfig} {r : DnsRecord}
    (hex : extract_hostname_from_rule rule = some h)
    (hk : name ++ ':' :: h ∉ s)
    (hcfg : get_domain_config cfg h = some dc)
    (hr : env.lookup dc.zone_id dc.api_key h = some r) :
    processRule env cfg name settings s rule =
      ((name ++ ':' :: h) :: s, [.lookup dc.zone_id dc.api_key h true]) := by
  unfold processRule
  simp only [hex, hcfg, hr]
  rw [if_neg hk]

/-- Rule processing when the lookup misses and the public address is set:
the lookup and a creation call are issued, and the key is marked only if
the creation succeeds. -/
theorem processRule_create {env : Env} {cfg : List (Str × DomainConfig)}
    {name : Str} {settings : List (Str × Bool)} {s : List Str} {rule h : Str}
    {dc : DomainConfig}
    (hex : extract_hostname_from_rule rule = some h)
    (hk : name ++ ':' :: h ∉ s)
    (hcfg : get_domain_config cfg h = some dc)
    (hl : env.lookup dc.zone_id dc.api_key h = none)
    (hip : env.swarmIp ≠ sentinelIp) :
    processRule env cfg name settings s rule =
      ((if env.createOk dc.zone_id dc.api_key h env.swarmIp
            (determineProxied settings rule name) then
          (name ++ ':' :: h) :: s
        else s),
       [.lookup dc.zone_id dc.api_key h false,
        .create dc.zone_id dc.api_key h env.swarmIp
          (determineProxied settings rule name)
          (env.createOk dc.zone_id dc.api_key h env.swarmIp
            (determineProxied settings rule name))]) := by
  unfold processRule
  simp only [hex, hcfg, hl]
  rw [if_neg hk, if_pos hip]

/-- Rule processing when the lookup misses and the public address is the
sentinel: only the failed lookup is issued, nothing is marked. -/
theorem processRule_no_ip {env : Env} {cfg : List (Str × DomainConfig)}
    {name : Str} {settings : List (Str × Bool)} {s : List Str} {rule h : Str}
    {dc : DomainConfig}
    (hex : extract_hostname_from_rule rule = some h)
    (hk : name ++ ':' :: h ∉ s)
    (hcfg : get_domain_config cfg h = some dc)
    (hl : env.lookup dc.zone_id dc.api_key h = none)
    (hip : ¬ env.swarmIp ≠ sentinelIp) :
    processRule env cfg name settings s rule =
      (s, [.lookup dc.zone_id dc.api_key h false]) := by
  unfold processRule
  simp only [hex, hcfg, hl]
  rw [if_neg hk, if_neg hip]

/-- Rule processing when the creation call succeeds: the key is marked. -/
theorem processRule_create_ok {env : Env} {cfg : List (Str × DomainConfig)}
    {name : Str} {settings : List (Str × Bool)} {s : List Str} {rule h : Str}
    {dc : DomainConfig}
    (hex : extract_hostname_from_rule rule = some h)
    (hk : name ++ ':' :: h ∉ s)
    (hcfg : get_domain_config cfg h = some dc)
    (hl : env.lookup dc.zone_id dc.api_key h = none)
    (hip : env.swarmIp ≠ sentinelIp)
    (hok : env.createOk dc.zone_id dc.api_key h env.swarmIp
      (determineProxied settings rule name) = true) :
    processRule env cfg name settings s rule =
      ((name ++ ':' :: h) :: s,
       [.lookup dc.zone_id dc.api_key h false,
        .create dc.zone_id dc.api_key h env.swarmIp
          (determineProxied settings rule name) true]) := by
  rw [processRule_create hex hk hcfg hl hip, hok, if_pos rfl]

/-- Rule processing when the creation call fails: nothing is marked, but the
failed creation call is in the trace. -/
theorem processRule_create_fail {env : Env} {cfg : List (Str × DomainConfig)}
    {name : Str} {settings : List (Str × Bool)} {s : List Str} {rule h : Str}
    {dc : DomainConfig}
    (hex : extract_hostname_from_rule rule = some h)
    (hk : name ++ ':' :: h ∉ s)
    (hcfg : get_domain_config cfg h = some dc)
    (hl : env.lookup dc.zone_id dc.api_key h = none)
    (hip : env.swarmIp ≠ sentinelIp)
    (hfail : env.createOk dc.zone_id dc.api_key h env.swarmIp
      (determineProxied settings rule name) = false) :
    processRule env cfg name settings s rule =
      (s, [.lookup dc.zone_id dc.api_key h false,
           .create dc.zone_id dc.api_key h env.swarmIp
             (determineProxied settings rule name) false]) := by
  rw [processRule_create hex hk hcfg hl hip, hfail, if_neg (by decide)]

/-- Per-rule invariant: the processed set only grows, and every key that
appears after a rule is processed is justified by a successful call of the
rule's trace. -/
theorem processRule_mono_justified (env : Env) (cfg : List (Str × DomainConfig))
    (name : Str) (settings : List (Str × Bool)) (s : List Str) (rule : Str) :
    (∀ k, k ∈ s → k ∈ (processRule env cfg name settings s rule).1) ∧
    (∀ k, k ∈ (processRule env cfg name settings s rule).1 → k ∉ s →
      ∃ c ∈ (processRule env cfg name settings s rule).2, callMarksKey name c = some k) := by
  cases hex : extract_hostname_from_rule rule with
  | none =>
    rw [processRule_no_hostname hex]
    exact ⟨fun k hk' => hk', fun k hk' hnk => absurd hk' hnk⟩
  | some h =>
    by_cases hk : name ++ ':' :: h ∈ s
    · rw [processRule_already hex hk]
      exact ⟨fun k hk' => hk', fun k hk' hnk => absurd hk' hnk⟩
    · cases hcfg : get_domain_config cfg h with
      | none =>
        rw [processRule_no_config hex hk hcfg]
        exact ⟨fun k hk' => hk', fun k hk' hnk => absurd hk' hnk⟩
      | some dc =>
        cases hr : env.lookup dc.zone_id dc.api_key h with
        | some r =>
          rw [processRule_found hex hk hcfg hr]
          refine ⟨fun k hk' => List.mem_cons_of_mem _ hk', fun k hk' hnk => ?_⟩
          rcases List.mem_cons.mp hk' with rfl | hk''
          · exact ⟨.lookup dc.zone_id dc.api_key h true, List.mem_singleton.mpr rfl, rfl⟩
          · exact absurd hk'' hnk
        | none =>
          by_cases hip : env.swarmIp ≠ sentinelIp
          · cases hok : env.createOk dc.zone_id dc.api_key h env.swarmIp
              (determineProxied settings rule name) with
            | true =>
              rw [processRule_create_ok hex hk hcfg hr hip hok]
              refine ⟨fun k hk' => List.mem_cons_of_mem _ hk', fun k hk' hnk => ?_⟩
              rcases List.mem_cons.mp hk' with rfl | hk''
              · refine ⟨.create dc.zone_id dc.api_key h env.swarmIp
                  (determineProxied settings rule name) true, ?_, rfl⟩
                exact List.mem_cons_of_mem _ (List.mem_singleton.mpr rfl)
              · exact absurd hk'' hnk
            | false =>
              rw [processRule_create_fail hex hk hcfg hr hip hok]
              exact ⟨fun k hk' => hk', fun k hk' hnk => absurd hk' hnk⟩
          · rw [processRule_no_ip hex hk hcfg hr hip]
            exact ⟨fun k hk' => hk', fun k hk' hnk => absurd hk' hnk⟩

/-- The per-rule invariant lifted to the rule loop. -/
theorem processRules_mono_justified (env : Env) (cfg : List (Str × DomainConfig))
    (name : Str) (settings : List (Str × Bool)) (rules : List Str) : ∀ s : List Str,
    (∀ k, k ∈ s → k ∈ (processRules env cfg name settings rules s).1) ∧
    (∀ k, k ∈ (processRules env cfg name settings rules s).1 → k ∉ s →
      ∃ c ∈ (processRules env cfg name settings rules s).2, callMarksKey name c = some k) := by
  induction rules with
  | nil =>
    intro s
    exact ⟨fun k hk => hk, fun k hk hnk => absurd hk hnk⟩
  | cons r rest ih =>
    intro s
    obtain ⟨h1, h2⟩ := processRule_mono_justified env cfg name settings s r
    obtain ⟨h1', h2'⟩ := ih (processRule env cfg name settings s r).1
    constructor
    · intro k hk
      exact h1' k (h1 k hk)
    · intro k hk hnk
      by_cases hmid : k ∈ (processRule env cfg name settings s r).1
      · obtain ⟨c, hc, hcall⟩ := h2 k hmid hnk
        exact ⟨c, List.mem_append_left _ hc, hcall⟩
      · obtain ⟨c, hc, hcall⟩ := h2' k hk hmid
        exact ⟨c, List.mem_append_right _ hc, hcall⟩

/-- Claim C3: across one workload's processing the processed-service set
only grows (no key is ever removed), and every key it gains is justified by
a provider call of the run's trace that either found an existing record or
created one successfully, for exactly that workload/hostname pair. -/
theorem c3_reconciliation_state_invariant (env : Env) (cfg : List (Str × DomainConfig))
    (name : Str) (labels : List (Str × Str)) (s : List Str) :
    (∀ k, k ∈ s → k ∈ (process_service_labels env cfg name labels s).1) ∧
    (∀ k, k ∈ (process_service_labels env cfg name labels s).1 → k ∉ s →
      ∃ c ∈ (process_service_labels env cfg name labels s).2, callMarksKey name c = some k) :=
  processRules_mono_justified env cfg name (extractLabels labels).2 (extractLabels labels).1 s

/-- Claim C3 witness: the invariant applied to a run of `labels0` from the
empty state against the record-found oracle. -/
theorem c3_reconciliation_state_invariant_witness :
    (∀ k, k ∈ ([] : List Str) → k ∈ (process_service_labels envFound cfg0 name0 labels0 []).1) ∧
    (∀ k, k ∈ (process_service_labels envFound cfg0 name0 labels0 []).1 → k ∉ ([] : List Str) →
      ∃ c ∈ (process_service_labels envFound cfg0 name0 labels0 []).2,
        callMarksKey name0 c = some k) :=
  c3_reconciliation_state_invariant envFound cfg0 name0 labels0 []

/-- Claim C4: if a rule's hostname resolves and the provider lookup reports
a record for it, then processing the same workload/rule a second time,
starting from the state the first pass produced, performs no provider call
at all (and leaves the state unchanged). -/
theorem c4_idempotent_after_found (env : Env) (cfg : List (Str × DomainConfig))
    (name : Str) (settings : List (Str × Bool)) (s : List Str) (rule h : Str)
    (hex : extract_hostname_from_rule rule = some h)
    (hfound : ∀ dc, get_domain_config cfg h = some dc →
      (env.lookup dc.zone_id dc.api_key h).isSome = true) :
    processRule env cfg name settings (processRule env cfg name settings s rule).1 rule
      = ((processRule env cfg name settings s rule).1, []) := by
  by_cases hk : name ++ ':' :: h ∈ s
  · rw [processRule_already hex hk]
    exact processRule_already hex hk
  · cases hcfg : get_domain_config cfg h with
    | none =>
      rw [processRule_no_config hex hk hcfg]
      exact processRule_no_config hex hk hcfg
    | some dc =>
      obtain ⟨r, hr⟩ := Option.isSome_iff_exists.mp (hfound dc hcfg)
      rw [processRule_found hex hk hcfg hr]
      exact processRule_already hex (List.mem_cons_self _ _)

/-- Claim C4 witness: second pass over `rule0` with the record-found oracle. -/
theorem c4_idempotent_after_found_witness :
    processRule envFound cfg0 name0 [] (processRule envFound cfg0 name0 [] [] rule0).1 rule0
      = ((processRule envFound cfg0 name0 [] [] rule0).1, []) :=
  c4_idempotent_after_found envFound cfg0 name0 [] [] rule0 host0 (by decide)
    (fun dc _ => rfl)

/-- Claim C5: when the lookup misses, the address is set and the creation
call fails, the idempotency key is not added (the state is returned
unchanged) while the failed creation call is in the trace; and processing
the identical event again from the resulting state re-attempts exactly the
same lookup and creation calls. -/
theorem c5_create_failure_retry (env : Env) (cfg : List (Str × DomainConfig))
    (name : Str) (settings : List (Str × Bool)) (s : List Str) (rule h : Str)
    (dc : DomainConfig)
    (hex : extract_hostname_from_rule rule = some h)
    (hcfg : get_domain_config cfg h = some dc)
    (hk : name ++ ':' :: h ∉ s)
    (hl : env.lookup dc.zone_id dc.api_key h = none)
    (hip : env.swarmIp ≠ sentinelIp)
    (hfail : env.createOk dc.zone_id dc.api_key h env.swarmIp
      (determineProxied settings rule name) = false) :
    processRule env cfg name settings s rule =
      (s, [.lookup dc.zone_id dc.api_key h false,
           .create dc.zone_id dc.api_key h env.swarmIp
             (determineProxied settings rule name) false]) ∧
    processRule env cfg name settings (processRule env cfg name settings s rule).1 rule =
      (s, [.lookup dc.zone_id dc.api_key h false,
           .create dc.zone_id dc.api_key h env.swarmIp
             (determineProxied settings rule name) false]) := by
  have h1 := processRule_create_fail hex hk hcfg hl hip hfail
  refine ⟨h1, ?_⟩
  rw [h1]
  exact h1

/-- Claim C5 witness: a failing creation for `rule0` leaves the state empty
and is retried identically. -/
theorem c5_create_failure_retry_witness :
    processRule envCreateFail cfg0 name0 [] [] rule0 =
      ([], [.lookup (str "Z1") (str "K1") host0 false,
            .create (str "Z1") (str "K1") host0 (str "1.2.3.4") true false]) ∧
    processRule envCreateFail cfg0 name0 []
        (processRule envCreateFail cfg0 name0 [] [] rule0).1 rule0 =
      ([], [.lookup (str "Z1") (str "K1") host0 false,
            .create (str "Z1") (str "K1") host0 (str "1.2.3.4") true false]) :=
  c5_create_failure_retry envCreateFail cfg0 name0 [] [] rule0 host0 dc0
    (by decide) (by decide) (List.not_mem_nil _) rfl (by decide) rfl

/-- Claim C9: every creation call a rule's processing issues carries the
proxied flag given by the first proxy-setting entry (in the mapping's
insertion order) whose router name is a substring of the rule expression or
of the workload name, defaulting to `true` when no entry matches. -/
theorem c9_create_proxied_flag (env : Env) (cfg : List (Str × DomainConfig))
    (name : Str) (settings : List (Str × Bool)) (s : List Str) (rule : Str)
    (z a h ip : Str) (p ok : Bool)
    (hmem : ProviderCall.create z a h ip p ok ∈ (processRule env cfg name settings s rule).2) :
    p = ((settings.find? (fun q => containsSub q.1 rule || containsSub q.1 name)).map
      Prod.snd).getD true := by
  rw [← determineProxied_eq_find]
  cases hex : extract_hostname_from_rule rule with
  | none =>
    rw [processRule_no_hostname hex] at hmem
    exact absurd hmem (List.not_mem_nil _)
  | some h0 =>
    by_cases hk : name ++ ':' :: h0 ∈ s
    · rw [processRule_already hex hk] at hmem
      exact absurd hmem (List.not_mem_nil _)
    · cases hcfg : get_domain_config cfg h0 with
      | none =>
        rw [processRule_no_config hex hk hcfg] at hmem
        exact absurd hmem (List.not_mem_nil _)
      | some dc =>
        cases hr : env.lookup dc.zone_id dc.api_key h0 with
        | some r =>
          rw [processRule_found hex hk hcfg hr] at hmem
          exact (nomatch List.mem_singleton.mp hmem)
        | none =>
          by_cases hip : env.swarmIp ≠ sentinelIp
          · rw [processRule_create hex hk hcfg hr hip] at hmem
            rcases List.mem_cons.mp hmem with heq | hmem'
            · exact (nomatch heq)
            · have heq := List.mem_singleton.mp hmem'
              rw [ProviderCall.create.injEq] at heq
              exact heq.2.2.2.2.1
          · rw [processRule_no_ip hex hk hcfg hr hip] at hmem
            exact (nomatch List.mem_singleton.mp hmem)

/-- Claim C9 witness: with the proxy setting `web ↦ false` the creation call
for `rule0` carries `proxied = false`, matching the first-match lookup. -/
theorem c9_create_proxied_flag_witness :
    false = (([(str "web", false)].find?
      (fun q => containsSub q.1 rule0 || containsSub q.1 name0)).map Prod.snd).getD true :=
  c9_create_proxied_flag envCreateFail cfg0 name0 [(str "web", false)] [] rule0
    (str "Z1") (str "K1") host0 (str "1.2.3.4") false false (by decide)

/-- Claim C6 witness: the extraction-order theorem applied to `mixedRule`. -/
theorem c6_hostname_extraction_order_witness :
    (∀ h, extract_hostname_from_rule mixedRule = some h ↔
      (leftmostHostMatch backTk mixedRule h ∨
        ((∀ i h', ¬ matchesAt backTk mixedRule i h') ∧
          leftmostHostMatch quoteTk mixedRule h))) ∧
    (extract_hostname_from_rule mixedRule = none ↔
      ((∀ i h', ¬ matchesAt backTk mixedRule i h') ∧
        (∀ i h', ¬ matchesAt quoteTk mixedRule i h'))) :=
  c6_hostname_extraction_order mixedRule

/-- Claim C7 witness: the resolver theorem applied to `cfg0` and `host0`. -/
theorem c7_domain_resolver_witness :
    get_domain_config cfg0 host0 = (cfg0.find? (fun p => p.1.isSuffixOf host0)).map Prod.snd ∧
    (get_domain_config cfg0 host0 = none ↔ ∀ p ∈ cfg0, p.1.isSuffixOf host0 = false) :=
  c7_domain_resolver cfg0 host0
